import Mathlib

/-!
Shallow embedding of the build-environment layer of python-build-standalone
(`pythonbuild/buildenv.py`, its metadata table `pythonbuild/downloads.py`,
and the collaborators it calls), with proofs about its observable behaviour.

Conventions of the embedding:
* file contents are `List Nat` (byte sequences), permission bits are `Nat`;
* a directory tree is the inductive `FsTree`; the order of a directory's
  entry list models the on-disk readdir order, which is what both
  `os.walk` and `find(1)` traverse before any explicit sorting;
* operations that perform I/O are embedded as pure functions from the
  relevant filesystem state to their observable result, with side effects
  reified as explicit action lists; fallible operations return `Except`.
-/

/-! ### Code-point string ordering

Python's `sorted` on `str` (used by `TempdirContext.find_output_files`
through `dirs.sort()` and `sorted(files)`) compares strings
lexicographically by code point.  The library order on `String` does not
reduce inside the kernel, so the same order is embedded directly on
`List Char`. -/

def charsLe : List Char → List Char → Bool
  | [], _ => true
  | _ :: _, [] => false
  | c :: cs, d :: ds =>
    if c < d then true
    else if d < c then false
    else charsLe cs ds

def strLe (a b : String) : Bool := charsLe a.data b.data

/-- Comparison of two values through a `String` key, as a sort relation. -/
def keyLe {α : Type} (k : α → String) (a b : α) : Prop := strLe (k a) (k b) = true

instance {α : Type} (k : α → String) : DecidableRel (keyLe k) := fun _ _ =>
  inferInstanceAs (Decidable (_ = true))

/-! ### Glob matching

`TempdirContext.find_output_files` filters file names with
`fnmatch.fnmatch(f, pattern)`; the container variant delegates the same
base-name matching to `find -name`.  Both implement shell glob semantics:
`*`, `?`, and `[...]` classes (with `!` negation, ranges, and a leading
`]` taken literally); an unterminated `[` is a literal character.  The
pattern is first compiled to a token list, then matched.  Both phases use
explicit fuel so that they are structurally recursive and evaluate by
kernel reduction; the fuel is always sufficient because every step
consumes at least one pattern or subject character. -/

inductive ClassItem where
  | one (c : Char)
  | range (lo hi : Char)
deriving DecidableEq, Repr

inductive GlobToken where
  | star
  | anyChar
  | lit (c : Char)
  | cls (negated : Bool) (items : List ClassItem)
deriving DecidableEq, Repr

def classItemMatch (c : Char) : ClassItem → Bool
  | .one d => c == d
  | .range lo hi => decide (lo ≤ c) && decide (c ≤ hi)

def classMatch (c : Char) (items : List ClassItem) : Bool :=
  items.any (classItemMatch c)

/-- Scan for the closing `]` of a character class, returning the content
before it and the remainder after it. -/
def findRBracket : List Char → Option (List Char × List Char)
  | [] => none
  | ']' :: rest => some ([], rest)
  | c :: rest =>
    match findRBracket rest with
    | some (content, rest') => some (c :: content, rest')
    | none => none

/-- Split a class body (the characters after `[`) into its negation flag,
its raw content, and the rest of the pattern, mirroring `fnmatch.translate`:
a leading `!` negates, and a `]` directly after `[` or `[!` is literal
content. -/
def splitBracket : List Char → Option (Bool × List Char × List Char)
  | '!' :: ']' :: cs => (findRBracket cs).map (fun p => (true, ']' :: p.1, p.2))
  | '!' :: cs => (findRBracket cs).map (fun p => (true, p.1, p.2))
  | ']' :: cs => (findRBracket cs).map (fun p => (false, ']' :: p.1, p.2))
  | cs => (findRBracket cs).map (fun p => (false, p.1, p.2))

/-- Parse class content into items; `a-b` away from the edges is a range. -/
def parseItems : List Char → List ClassItem
  | [] => []
  | a :: '-' :: b :: rest => .range a b :: parseItems rest
  | a :: rest => .one a :: parseItems rest

/-- Class content parse with a leading `-` taken literally. -/
def parseItemsTop : List Char → List ClassItem
  | '-' :: rest => .one '-' :: parseItems rest
  | cs => parseItems cs

def translateFuel : Nat → List Char → List GlobToken
  | 0, _ => []
  | _ + 1, [] => []
  | fuel + 1, '*' :: p => .star :: translateFuel fuel p
  | fuel + 1, '?' :: p => .anyChar :: translateFuel fuel p
  | fuel + 1, '[' :: p =>
    match splitBracket p with
    | some (neg, content, rest) => .cls neg (parseItemsTop content) :: translateFuel fuel rest
    | none => .lit '[' :: translateFuel fuel p
  | fuel + 1, c :: p => .lit c :: translateFuel fuel p

def globTranslate (p : List Char) : List GlobToken := translateFuel p.length p

def globMatchFuel : Nat → List GlobToken → List Char → Bool
  | 0, _, _ => false
  | _ + 1, [], s => s.isEmpty
  | fuel + 1, .star :: p, s =>
    globMatchFuel fuel p s ||
      (match s with
       | [] => false
       | _ :: s' => globMatchFuel fuel (.star :: p) s')
  | fuel + 1, .anyChar :: p, s =>
    (match s with
     | [] => false
     | _ :: s' => globMatchFuel fuel p s')
  | fuel + 1, .lit c :: p, s =>
    (match s with
     | [] => false
     | d :: s' => (c == d) && globMatchFuel fuel p s')
  | fuel + 1, .cls neg items :: p, s =>
    (match s with
     | [] => false
     | d :: s' => (classMatch d items != neg) && globMatchFuel fuel p s')

/-- Embedding of `fnmatch.fnmatch(name, pat)` (and of `find -name pat`
applied to base name `name`). -/
def fnmatch (name pat : String) : Bool :=
  let toks := globTranslate pat.data
  globMatchFuel (toks.length + name.data.length + 1) toks name.data

example : fnmatch "a.so" "*.so" = true := rfl
example : fnmatch "c.txt" "*.so" = false := rfl
example : fnmatch "b.so" "*.so" = true := rfl
example : fnmatch "abc" "[a/]bc" = true := rfl
example : fnmatch "sub/b.so" "*.so" = true := rfl
example : fnmatch "x" "?" = true := rfl
example : fnmatch "xy" "?" = false := rfl
example : fnmatch "ab" "a[!b]" = false := rfl
example : fnmatch "ac" "a[!b]" = true := rfl
example : fnmatch "a5b" "a[0-9]b" = true := rfl
example : fnmatch "axb" "a[0-9]b" = false := rfl
example : fnmatch "a/b" "a/b" = true := rfl
example : fnmatch "ab" "a/b" = false := rfl

/-! ### File trees

A captured filesystem subtree.  Directory entries are `(name, subtree)`
pairs; the list order models the on-disk readdir order that `os.walk`
and `find(1)` traverse (both backends' enumeration depends on it unless
they sort explicitly). -/

inductive FsTree where
  | file (content : List Nat) (mode : Nat) : FsTree
  | dir (mode : Nat) (entries : List (String × FsTree)) : FsTree

/-- First entry with the given name, mirroring path-component resolution. -/
def childNamed (n : String) : List (String × FsTree) → Option FsTree
  | [] => none
  | (m, t) :: es => if m = n then some t else childNamed n es

/-- Resolve a relative path (as components) inside a tree. -/
def lookupPath (t : FsTree) : List String → Option FsTree
  | [] => some t
  | n :: rest =>
    match t with
    | .file _ _ => none
    | .dir _ es =>
      match childNamed n es with
      | some c => lookupPath c rest
      | none => none

/-! Well-formedness of a tree as a filesystem snapshot: entry names are
unique in every directory (a real directory cannot hold two entries of
the same name). -/
mutual
def wfB : FsTree → Bool
  | .file _ _ => true
  | .dir _ es => (es.map Prod.fst).Nodup && wfEntriesB es
termination_by structural t => t
def wfEntriesB : List (String × FsTree) → Bool
  | [] => true
  | (_, t) :: es => wfB t && wfEntriesB es
termination_by structural es => es
end

/-! Canonical form of a tree: every directory's entries sorted by name,
recursively.  Two trees are the same filesystem state — identical entry
names, file contents, and permission bits, differing at most in readdir
order — exactly when their canonical forms are equal. -/
mutual
def canon : FsTree → FsTree
  | .file c m => .file c m
  | .dir m es => .dir m (List.insertionSort (keyLe Prod.fst) (canonEntries es))
termination_by structural t => t
def canonEntries : List (String × FsTree) → List (String × FsTree)
  | [] => []
  | (n, t) :: es => (n, canon t) :: canonEntries es
termination_by structural es => es
end

/-! ### `TempdirContext.find_output_files`

Embedding of

```
for root, dirs, files in os.walk(base):
    dirs.sort()
    for f in sorted(files):
        if fnmatch.fnmatch(f, pattern):
            full = os.path.join(root, f)
            yield full[len(base) + 1 :]
```

`os.walk` visits the start directory first, yielding its file names, then
recurses into its subdirectories; `dirs.sort()` makes that recursion run
in sorted order and `sorted(files)` sorts the yielded names.  To keep the
recursion structural, the walk below first computes each subdirectory's
(name, result) pair in readdir order and then sorts the pairs by name;
because the sort is stable and keyed only on the name this produces the
same list as sorting the subdirectory names before recursing. -/

def fileNamesOf (es : List (String × FsTree)) : List String :=
  es.filterMap (fun e =>
    match e.2 with
    | .file _ _ => some e.1
    | .dir _ _ => none)

mutual
def walkFind (pref pat : String) : FsTree → List String
  | .file _ _ => []
  | .dir _ es =>
    ((List.insertionSort (keyLe id) (fileNamesOf es)).filter (fun f => fnmatch f pat)).map
      (fun f => pref ++ f)
    ++ (List.insertionSort (keyLe Prod.fst) (walkSub pref pat es)).flatMap Prod.snd
termination_by structural t => t
def walkSub (pref pat : String) : List (String × FsTree) → List (String × List String)
  | [] => []
  | (n, t) :: es =>
    match t with
    | .file _ _ => walkSub pref pat es
    | .dir _ _ => (n, walkFind (pref ++ n ++ "/") pat t) :: walkSub pref pat es
termination_by structural es => es
end

/-- `TempdirContext.find_output_files(base_path, pattern)`: walk
`self.td / "out" / base_path` (a missing or non-directory base yields
nothing, as `os.walk` does) and yield matching files relative to it. -/
def TempdirContext.find_output_files (outTree : FsTree) (basePath : List String)
    (pat : String) : List String :=
  match lookupPath outTree basePath with
  | some t => walkFind "" pat t
  | none => []

/-! ### `ContainerContext.find_output_files`

Embedding of

```
command = ["/usr/bin/find", f"/build/out/{base_path}", "-name", pattern]
for line in self.container.exec_run(command, user="build")[1].splitlines():
    if not line.strip():
        continue
    yield line[len(f"/build/out/{base_path}/"):].decode("ascii")
```

`find` prints the start path itself when its base name matches, then every
node of the tree whose base name matches `pattern`, depth-first in readdir
order — it performs no sorting.  Stripping `len(prefix)` characters leaves
each printed path relative to the start directory (the start path itself
strips to the empty string). -/

mutual
def findNode (pref pat name : String) : FsTree → List String
  | .file _ _ => if fnmatch name pat then [pref ++ name] else []
  | .dir _ es =>
    (if fnmatch name pat then [pref ++ name] else [])
    ++ findChildren (pref ++ name ++ "/") pat es
termination_by structural t => t
def findChildren (pref pat : String) : List (String × FsTree) → List String
  | [] => []
  | (n, t) :: es => findNode pref pat n t ++ findChildren pref pat es
termination_by structural es => es
end

def ContainerContext.find_output_files (outTree : FsTree) (basePath : List String)
    (pat : String) : List String :=
  match lookupPath outTree basePath with
  | none => []
  | some (.file _ _) => if fnmatch (basePath.getLastD "out") pat then [""] else []
  | some (.dir _ es) =>
    (if fnmatch (basePath.getLastD "out") pat then [""] else [])
    ++ findChildren "" pat es

example :
    TempdirContext.find_output_files
      (.dir 7 [("lib", .dir 7 [("c.txt", .file [1] 6), ("sub", .dir 7 [("b.so", .file [2] 6)]),
        ("a.so", .file [3] 6)])])
      ["lib"] "*.so" = ["a.so", "sub/b.so"] := rfl

example :
    ContainerContext.find_output_files
      (.dir 7 [("lib", .dir 7 [("b.so", .file [2] 6), ("a.so", .file [3] 6)])])
      ["lib"] "*.so" = ["b.so", "a.so"] := rfl

/-! ### Output archives and their normalization

`ContainerContext.get_output_archive` reads a tar of `/build/out[/path]`
via `container_get_archive` and passes it through `normalize_tar_archive`;
`TempdirContext.get_output_archive` builds a tar of
`self.td / "out" / path` via `create_tar_from_directory` and passes it
through the same `normalize_tar_archive`.  The three helpers live in
`pythonbuild/docker.py` and `pythonbuild/utils.py`, which are not part of
the provided sources, so they are modelled from the spec below.

An archive is modelled at tar-entry granularity: serializing a list of
tar entries to bytes is injective entry-by-entry, so equality of entry
lists models byte-identical archives. -/

/-- One tar entry: full path name, kind, permission bits, payload, and the
backend-dependent metadata (timestamp, ownership). -/
structure TarEntry where
  name : String
  isDir : Bool
  mode : Nat
  content : List Nat
  mtime : Nat
  uid : Nat
  gid : Nat
deriving DecidableEq, Repr

/-- Backend-dependent raw tar metadata: the timestamps and ownership ids
a backend stamps on the entries it captures (a container capture and a
host-tempdir capture generally disagree on all of these). -/
structure BackendMeta where
  mtime : Nat
  uid : Nat
  gid : Nat
deriving DecidableEq, Repr

/-! Modelled from the spec: capture of a subtree as a tar byte stream
(`container_get_archive` in the missing `pythonbuild/docker.py`, and
`create_tar_from_directory` in the missing `pythonbuild/utils.py`).  Both
produce one entry per node, named by its path below the capture root and
prefixed with the root's base name, in the backend's traversal order,
stamped with backend-dependent timestamps and ownership. -/
mutual
def captureNode (m : BackendMeta) (pref name : String) : FsTree → List TarEntry
  | .file c mode => [⟨pref ++ name, false, mode, c, m.mtime, m.uid, m.gid⟩]
  | .dir mode es =>
    ⟨pref ++ name, true, mode, [], m.mtime, m.uid, m.gid⟩
      :: captureEntries m (pref ++ name ++ "/") es
termination_by structural t => t
def captureEntries (m : BackendMeta) (pref : String) : List (String × FsTree) → List TarEntry
  | [] => []
  | (n, t) :: es => captureNode m pref n t ++ captureEntries m pref es
termination_by structural es => es
end

/-- Pin one entry's backend-dependent metadata to fixed sentinel values. -/
def pinEntry (e : TarEntry) : TarEntry :=
  ⟨e.name, e.isDir, e.mode, e.content, 0, 0, 0⟩

/-- Modelled from the spec: `normalize_tar_archive` (in the missing
`pythonbuild/utils.py`) — entries sorted by name, ownership cleared and
modification times pinned to a fixed epoch, so that byte-identical trees
give byte-identical archives. -/
def normalize_tar_archive (entries : List TarEntry) : List TarEntry :=
  List.insertionSort (keyLe TarEntry.name) (entries.map pinEntry)

/-- `ContainerContext.get_output_archive(path)`: capture `/build/out/path`
(the entries are rooted at the base name of the captured path) and
normalize. -/
def ContainerContext.get_output_archive (m : BackendMeta) (rootName : String)
    (t : FsTree) : List TarEntry :=
  normalize_tar_archive (captureNode m "" rootName t)

/-- `TempdirContext.get_output_archive(path)`: tar `self.td / "out" / path`
with `path_prefix=p.parts[-1]` (the captured path's base name) and
normalize. -/
def TempdirContext.get_output_archive (m : BackendMeta) (rootName : String)
    (t : FsTree) : List TarEntry :=
  normalize_tar_archive (captureNode m "" rootName t)

/-! ### `get_file` -/

inductive GetFileError where
  | fileNotFound
  | isADirectory
  | attributeError
deriving DecidableEq, Repr

/-- `TempdirContext.get_file(path)`: `(self.td / path).open("rb").read()`.
A missing path raises a file-not-found error; a path that resolves to a
directory raises a different error (`IsADirectoryError`). -/
def TempdirContext.get_file (td : FsTree) (path : List String) :
    Except GetFileError (List Nat) :=
  match lookupPath td path with
  | none => .error .fileNotFound
  | some (.file c _) => .ok c
  | some (.dir _ _) => .error .isADirectory

/-- Modelled from the spec: `container_get_archive` (missing
`pythonbuild/docker.py`) wraps the container API's `get_archive`, which
returns a tar stream of the file or directory at the path, and raises a
not-found error when the path does not exist. -/
def container_get_archive (m : BackendMeta) (root : FsTree) (path : List String) :
    Except GetFileError (List TarEntry) :=
  match lookupPath root path with
  | none => .error .fileNotFound
  | some t => .ok (captureNode m "" (path.getLastD "") t)

/-- `ContainerContext.get_file(path)`: fetch the tar of `/build/{path}` and
return the first entry's extracted bytes (`for ti in tf: return
tf.extractfile(ti).read()`).  An empty tar raises "file not found"; a
directory entry makes `extractfile` return `None`, so `.read()` raises an
attribute error. -/
def ContainerContext.get_file (m : BackendMeta) (root : FsTree) (path : List String) :
    Except GetFileError (List Nat) :=
  match container_get_archive m root path with
  | .error e => .error e
  | .ok [] => .error .fileNotFound
  | .ok (e :: _) => if e.isDir then .error .attributeError else .ok e.content

/-! ### `run` -/

/-- A command as `buildenv.py` receives it: either a single string or an
argument vector (both backends only inspect the string form). -/
inductive Program where
  | str (s : String)
  | argv (args : List String)
deriving DecidableEq, Repr

inductive RunError where
  | cannotChangeUser
deriving DecidableEq, Repr

/-- One executed command, as observed by the execution collaborator
(`container_exec` or `exec_and_log`). -/
structure ExecCall where
  program : Program
  user : String
  cwd : Option String
  env : List (String × String)
deriving DecidableEq, Repr

/-- Embedding of `program.startswith("/")`. -/
def startsWithSlash (s : String) : Bool :=
  match s.data with
  | '/' :: _ => true
  | _ => false

/-- `ContainerContext.run`: a string program not starting with `/` becomes
`f"/build/{program}"`; any other form is passed through unchanged. -/
def ContainerContext.resolveProgram (program : Program) : Program :=
  match program with
  | .str s => if startsWithSlash s then .str s else .str ("/build/" ++ s)
  | .argv args => .argv args

/-- `TempdirContext.run`: a string program not starting with `/` becomes
`str(self.td / program)`; any other form is passed through unchanged. -/
def TempdirContext.resolveProgram (td : String) (program : Program) : Program :=
  match program with
  | .str s => if startsWithSlash s then .str s else .str (td ++ "/" ++ s)
  | .argv args => .argv args

/-- `ContainerContext.run(program, user, environment)`: resolves a relative
string program against `/build` and executes via `container_exec` with the
requested user — any user value is accepted. -/
def ContainerContext.run (program : Program) (user : String)
    (environment : List (String × String)) : Except RunError ExecCall :=
  .ok ⟨ContainerContext.resolveProgram program, user, none, environment⟩

/-- `TempdirContext.run(program, user, environment)`: raises before any
execution when a user other than `"build"` is requested; otherwise resolves
a relative string program against the temp directory and executes via
`exec_and_log` with `cwd=self.td`. -/
def TempdirContext.run (td : String) (program : Program) (user : String)
    (environment : List (String × String)) : Except RunError ExecCall :=
  if user = "build" then
    .ok ⟨TempdirContext.resolveProgram td program, user, some td, environment⟩
  else
    .error .cannotChangeUser

/-! ### `build_environment` -/

/-- Teardown side effects of `build_environment`'s `finally` block. -/
inductive TeardownStep where
  | containerStop (timeout : Nat)
  | containerRemove
  | tempdirCleanup
deriving DecidableEq, Repr

/-- Embedding of the `build_environment` context manager: create the
backend (container when a client is given, tempdir otherwise), run the
caller's body on the handle (the body's outcome is a normal value or a
propagating exception, `Except`), and perform the `finally` teardown —
`container.stop(timeout=0); container.remove()` or `td.cleanup()` —
regardless of the outcome.  The result is the body's outcome paired with
the executed teardown steps. -/
def build_environment {α ε : Type} (isolated : Bool) (body : Bool → Except ε α) :
    Except ε α × List TeardownStep :=
  let outcome := body isolated
  if isolated then
    (outcome, [.containerStop 0, .containerRemove])
  else
    (outcome, [.tempdirCleanup])

/-! ### Package metadata and archive installers -/

/-- Version column of the `DOWNLOADS` table (`pythonbuild/downloads.py`):
each package's canonical version string, used to compute archive
basenames. -/
def DOWNLOADS : List (String × String) :=
  [("autoconf", "2.69"), ("bdb", "6.0.19"), ("binutils", "2.38"),
   ("bzip2", "1.0.8"), ("cpython-3.8", "3.8.16"), ("cpython-3.9", "3.9.16"),
   ("cpython-3.10", "3.10.9"), ("gdbm", "1.21"), ("inputproto", "2.3.2"),
   ("jom-windows-bin", "1.1.3"), ("kbproto", "1.0.7"),
   ("libedit", "20210910-3.1"), ("libffi", "3.3"),
   ("libpthread-stubs", "0.1"), ("libX11", "1.6.8"), ("libXau", "1.0.7"),
   ("libxcb", "1.13.1"), ("llvm-x86_64-linux", "14.0.3+20220508"),
   ("llvm-aarch64-macos", "14.0.3+20220508"),
   ("llvm-x86_64-macos", "14.0.3+20220508"), ("m4", "1.4.19"),
   ("mpdecimal", "2.5.1"), ("musl", "1.2.3"), ("ncurses", "6.3"),
   ("openssl", "1.1.1s"), ("nasm-windows-bin", "2.11.06"),
   ("patchelf", "0.12"), ("pip", "22.3.1"), ("readline", "8.2"),
   ("setuptools", "65.6.3"), ("sqlite", "3400000"),
   ("strawberryperl", "5.28.1.1"), ("tcl", "8.6.12"), ("tix", "8.4.3.6"),
   ("tk", "8.6.12"), ("tk-windows-bin", "8.6.12"), ("uuid", "1.0.3"),
   ("x11-util-macros", "1.19.2"), ("xcb-proto", "1.14.1"),
   ("xextproto", "7.3.0"), ("xorgproto", "2019.1"), ("xproto", "7.0.31"),
   ("xtrans", "1.4.0"), ("xz", "5.2.9"), ("zlib", "1.2.13")]

/-- `DOWNLOADS[package_name]["version"]`; `none` models the `KeyError` on
an unknown package. -/
def downloadVersion (package : String) : Option String :=
  List.lookup package DOWNLOADS

inductive MetadataError where
  | keyError
deriving DecidableEq, Repr

/-- Filesystem/side effects of the installers. -/
inductive InstallStep where
  | copyFileToContainer (source destPath destName : String)
  | containerExec (args : List String) (user : String)
  | extractTarToDirectory (source dest : String)
deriving DecidableEq, Repr

/-- `f'{package_name}-{entry["version"]}-{host_platform}.tar'`. -/
def toolchainBasename (package version hostPlatform : String) : String :=
  package ++ "-" ++ version ++ "-" ++ hostPlatform ++ ".tar"

/-- `f'{package_name}-{entry["version"]}-{target_triple}-{optimizations}.tar'`. -/
def artifactBasename (package version targetTriple optimizations : String) : String :=
  package ++ "-" ++ version ++ "-" ++ targetTriple ++ "-" ++ optimizations ++ ".tar"

def ContainerContext.install_toolchain_archive (buildDir package hostPlatform : String) :
    Except MetadataError (List InstallStep) :=
  match downloadVersion package with
  | none => .error .keyError
  | some v =>
    let basename := toolchainBasename package v hostPlatform
    .ok [.copyFileToContainer (buildDir ++ "/" ++ basename) "/build" basename,
         .containerExec ["/bin/tar", "-C", "/tools", "-xf", "/build/" ++ basename] "root"]

def ContainerContext.install_artifact_archive
    (buildDir package targetTriple optimizations : String) :
    Except MetadataError (List InstallStep) :=
  match downloadVersion package with
  | none => .error .keyError
  | some v =>
    let basename := artifactBasename package v targetTriple optimizations
    .ok [.copyFileToContainer (buildDir ++ "/" ++ basename) "/build" basename,
         .containerExec ["/bin/tar", "-C", "/tools", "-xf", "/build/" ++ basename] "root"]

def TempdirContext.install_toolchain_archive (td buildDir package hostPlatform : String) :
    Except MetadataError (List InstallStep) :=
  match downloadVersion package with
  | none => .error .keyError
  | some v =>
    let basename := toolchainBasename package v hostPlatform
    .ok [.extractTarToDirectory (buildDir ++ "/" ++ basename) (td ++ "/tools")]

def TempdirContext.install_artifact_archive
    (td buildDir package targetTriple optimizations : String) :
    Except MetadataError (List InstallStep) :=
  match downloadVersion package with
  | none => .error .keyError
  | some v =>
    let basename := artifactBasename package v targetTriple optimizations
    .ok [.extractTarToDirectory (buildDir ++ "/" ++ basename) (td ++ "/tools")]

/-- `ContainerContext.install_toolchain`: installs binutils, then the
clang toolchain (whose package name `clang_toolchain(host_platform,
target_triple)` comes from the missing `pythonbuild/utils.py` and is
therefore a parameter here), then musl — each only when its flag is set.
The step lists of the performed sub-installs are concatenated in that
order. -/
def ContainerContext.install_toolchain (clangToolchain : String → String → String)
    (buildDir hostPlatform targetTriple : String) (binutils musl clang : Bool) :
    Except MetadataError (List InstallStep) := do
  let s₁ ← if binutils then
      ContainerContext.install_toolchain_archive buildDir "binutils" hostPlatform
    else pure []
  let s₂ ← if clang then
      ContainerContext.install_toolchain_archive buildDir
        (clangToolchain hostPlatform targetTriple) hostPlatform
    else pure []
  let s₃ ← if musl then
      ContainerContext.install_toolchain_archive buildDir "musl" hostPlatform
    else pure []
  pure (s₁ ++ s₂ ++ s₃)

/-- `TempdirContext.install_toolchain`: same composition for the tempdir
backend. -/
def TempdirContext.install_toolchain (clangToolchain : String → String → String)
    (td buildDir platform targetTriple : String) (binutils musl clang : Bool) :
    Except MetadataError (List InstallStep) := do
  let s₁ ← if binutils then
      TempdirContext.install_toolchain_archive td buildDir "binutils" platform
    else pure []
  let s₂ ← if clang then
      TempdirContext.install_toolchain_archive td buildDir
        (clangToolchain platform targetTriple) platform
    else pure []
  let s₃ ← if musl then
      TempdirContext.install_toolchain_archive td buildDir "musl" platform
    else pure []
  pure (s₁ ++ s₂ ++ s₃)

/-! ### Stateful view of `find_output_files`

Each call of the generator function creates a fresh generator over the
current output directory; materializing it reads the directory but keeps
no cursor or other state across calls.  A call is therefore a function
from the backend state to (result, unchanged state). -/

def TempdirContext.find_output_files_call (outTree : FsTree) (basePath : List String)
    (pat : String) : List String × FsTree :=
  (TempdirContext.find_output_files outTree basePath pat, outTree)

def ContainerContext.find_output_files_call (outTree : FsTree) (basePath : List String)
    (pat : String) : List String × FsTree :=
  (ContainerContext.find_output_files outTree basePath pat, outTree)

/-! ### Enumeration views used to characterize the two find variants

`walkAllFiles` lists every file the tempdir walk visits, in walk order,
as (relative path, base name) pairs — the same traversal as `walkFind`
but without the pattern filter.  `allNodes` lists every node `find(1)`
visits (the start node and all descendants, files and directories alike),
in traversal order, as (printed path, base name) pairs. -/

mutual
def walkAllFiles (pref : String) : FsTree → List (String × String)
  | .file _ _ => []
  | .dir _ es =>
    (List.insertionSort (keyLe id) (fileNamesOf es)).map (fun f => (pref ++ f, f))
    ++ (List.insertionSort (keyLe Prod.fst) (walkAllSub pref es)).flatMap Prod.snd
termination_by structural t => t
def walkAllSub (pref : String) : List (String × FsTree) → List (String × List (String × String))
  | [] => []
  | (n, t) :: es =>
    match t with
    | .file _ _ => walkAllSub pref es
    | .dir _ _ => (n, walkAllFiles (pref ++ n ++ "/") t) :: walkAllSub pref es
termination_by structural es => es
end

mutual
def allNodes (pref name : String) : FsTree → List (String × String)
  | .file _ _ => [(pref ++ name, name)]
  | .dir _ es => (pref ++ name, name) :: allNodesChildren (pref ++ name ++ "/") es
termination_by structural t => t
def allNodesChildren (pref : String) : List (String × FsTree) → List (String × String)
  | [] => []
  | (n, t) :: es => allNodes pref n t ++ allNodesChildren pref es
termination_by structural es => es
end

/-! ### Concrete fixtures used by witnesses and counterexamples -/

/-- Output tree holding `lib/a.so`, `lib/sub/b.so`, `lib/c.txt`, with the
readdir order of `lib` deliberately unsorted. -/
def exOutTree : FsTree :=
  .dir 493 [("lib", .dir 493
    [("c.txt", .file [99] 420), ("sub", .dir 493 [("b.so", .file [98] 420)]),
     ("a.so", .file [97] 420)])]

/-- The same file tree as `exOutTree` with every directory's entries
already in sorted readdir order. -/
def exOutTreeSorted : FsTree :=
  .dir 493 [("lib", .dir 493
    [("a.so", .file [97] 420), ("c.txt", .file [99] 420),
     ("sub", .dir 493 [("b.so", .file [98] 420)])])]

/-- A tree whose `lib` directory lists `b.so` before `a.so` (readdir order
is not sorted). -/
def exUnsorted : FsTree :=
  .dir 493 [("lib", .dir 493 [("b.so", .file [98] 420), ("a.so", .file [97] 420)])]

/-- A tree with one file `a` and one directory `d`. -/
def exFileDir : FsTree :=
  .dir 493 [("a", .file [7, 8] 420), ("d", .dir 493 [("x", .file [9] 420)])]
theorem charsLe_total : ∀ a b : List Char, charsLe a b = true ∨ charsLe b a = true
  | [], _ => .inl rfl
  | _ :: _, [] => .inr rfl
  | c :: cs, d :: ds => by
    simp only [charsLe]
    rcases lt_trichotomy c d with h | h | h
    · simp [h]
    · subst h
      simpa [lt_irrefl] using charsLe_total cs ds
    · simp [h, not_lt_of_gt h]

theorem charsLe_trans : ∀ {a b c : List Char},
    charsLe a b = true → charsLe b c = true → charsLe a c = true
  | [], _, _, _, _ => rfl
  | _ :: _, [], _, h, _ => by simp [charsLe] at h
  | _ :: _, _ :: _, [], _, h => by simp [charsLe] at h
  | a :: as, b :: bs, c :: cs, h₁, h₂ => by
    simp only [charsLe] at h₁ h₂ ⊢
    rcases lt_trichotomy a b with hab | hab | hab
    · rcases lt_trichotomy b c with hbc | hbc | hbc
      · simp [lt_trans hab hbc]
      · subst hbc; simp [hab]
      · simp [hbc, not_lt_of_gt hbc] at h₂
    · subst hab
      rcases lt_trichotomy a c with hac | hac | hac
      · simp [hac]
      · subst hac
        simp only [lt_irrefl, if_false] at h₁ h₂ ⊢
        exact charsLe_trans h₁ h₂
      · simp [hac, not_lt_of_gt hac] at h₂
    · simp [hab, not_lt_of_gt hab] at h₁

theorem charsLe_antisymm : ∀ {a b : List Char},
    charsLe a b = true → charsLe b a = true → a = b
  | [], [], _, _ => rfl
  | [], _ :: _, _, h => by simp [charsLe] at h
  | _ :: _, [], h, _ => by simp [charsLe] at h
  | a :: as, b :: bs, h₁, h₂ => by
    simp only [charsLe] at h₁ h₂
    rcases lt_trichotomy a b with hab | hab | hab
    · simp [hab, not_lt_of_gt hab] at h₂
    · subst hab
      simp only [lt_irrefl, if_false] at h₁ h₂
      exact congrArg (a :: ·) (charsLe_antisymm h₁ h₂)
    · simp [hab, not_lt_of_gt hab] at h₁

theorem strLe_antisymm {a b : String} (h₁ : strLe a b = true) (h₂ : strLe b a = true) :
    a = b := by
  cases a; cases b
  exact congrArg String.mk (charsLe_antisymm h₁ h₂)

instance {α : Type} (k : α → String) : IsTotal α (keyLe k) :=
  ⟨fun a b => charsLe_total (k a).data (k b).data⟩

instance {α : Type} (k : α → String) : IsTrans α (keyLe k) :=
  ⟨fun _ _ _ h₁ h₂ => charsLe_trans h₁ h₂⟩


/-! ### Generic list lemmas -/

theorem flatMap_eq_flatten_map {α β : Type} (f : α → List β) (l : List α) :
    l.flatMap f = (l.map f).flatten := by
  induction l with
  | nil => rfl
  | cons a l ih => simp [List.flatMap_cons, ih]

theorem perm_flatMap {α β : Type} (f : α → List β) {l₁ l₂ : List α} (h : l₁.Perm l₂) :
    (l₁.flatMap f).Perm (l₂.flatMap f) := by
  rw [flatMap_eq_flatten_map, flatMap_eq_flatten_map]
  exact (h.map f).flatten

theorem filter_flatMap {α β : Type} (p : β → Bool) (f : α → List β) (l : List α) :
    (l.flatMap f).filter p = l.flatMap (fun a => (f a).filter p) := by
  induction l with
  | nil => rfl
  | cons a l ih => simp [List.flatMap_cons, List.filter_append, ih]

theorem map_flatMap {α β γ : Type} (g : β → γ) (f : α → List β) (l : List α) :
    (l.flatMap f).map g = l.flatMap (fun a => (f a).map g) := by
  induction l with
  | nil => rfl
  | cons a l ih => simp [List.flatMap_cons, ih]

theorem flatMap_map {α β γ : Type} (g : α → β) (f : β → List γ) (l : List α) :
    (l.map g).flatMap f = l.flatMap (f ∘ g) := by
  induction l with
  | nil => rfl
  | cons a l ih => simp [List.flatMap_cons, ih]

/-! ### Sorting lemmas -/

theorem insertionSort_eq_of_perm_str {l₁ l₂ : List String} (h : l₁.Perm l₂) :
    List.insertionSort (keyLe id) l₁ = List.insertionSort (keyLe id) l₂ := by
  haveI : IsAntisymm String (keyLe id) := ⟨fun _ _ h₁ h₂ => strLe_antisymm h₁ h₂⟩
  exact List.eq_of_perm_of_sorted
    ((List.perm_insertionSort _ l₁).trans (h.trans (List.perm_insertionSort _ l₂).symm))
    (List.sorted_insertionSort _ l₁) (List.sorted_insertionSort _ l₂)

theorem insertionSort_eq_of_perm_keys {α : Type} (k : α → String) {l₁ l₂ : List α}
    (h : l₁.Perm l₂) (hnd : (l₁.map k).Nodup) :
    List.insertionSort (keyLe k) l₁ = List.insertionSort (keyLe k) l₂ := by
  haveI : IsAntisymm α (fun a b => keyLe k a b ∧ k a ≠ k b) :=
    ⟨fun _ _ h₁ h₂ => absurd (strLe_antisymm h₁.1 h₂.1) h₁.2⟩
  have hp₁ := List.perm_insertionSort (keyLe k) l₁
  have hp₂ := List.perm_insertionSort (keyLe k) l₂
  have hnd₁ : ((List.insertionSort (keyLe k) l₁).map k).Nodup :=
    ((hp₁.map k).symm).nodup hnd
  have hnd₂ : ((List.insertionSort (keyLe k) l₂).map k).Nodup :=
    ((hp₂.map k).symm).nodup ((h.map k).nodup hnd)
  exact @List.eq_of_perm_of_sorted α (fun a b => keyLe k a b ∧ k a ≠ k b) _ _ _
    (hp₁.trans (h.trans hp₂.symm))
    ((List.sorted_insertionSort _ l₁).and (List.pairwise_map.mp hnd₁))
    ((List.sorted_insertionSort _ l₂).and (List.pairwise_map.mp hnd₂))

/-! ### Capture lemmas (archive normalization) -/

theorem captureEntries_eq_flatMap (m : BackendMeta) (pref : String)
    (es : List (String × FsTree)) :
    captureEntries m pref es = es.flatMap (fun e => captureNode m pref e.1 e.2) := by
  induction es with
  | nil => rfl
  | cons e es ih => cases e; simp [captureEntries, List.flatMap_cons, ih]

mutual
theorem captureNode_map_pin (m m' : BackendMeta) (pref name : String) :
    ∀ t : FsTree, (captureNode m pref name t).map pinEntry
      = (captureNode m' pref name t).map pinEntry
  | .file _ _ => rfl
  | .dir _ es => by
    simp only [captureNode, List.map_cons]
    exact congrArg₂ (· :: ·) rfl (captureEntries_map_pin m m' _ es)
termination_by structural t => t
theorem captureEntries_map_pin (m m' : BackendMeta) (pref : String) :
    ∀ es : List (String × FsTree), (captureEntries m pref es).map pinEntry
      = (captureEntries m' pref es).map pinEntry
  | [] => rfl
  | (n, t) :: es => by
    simp only [captureEntries, List.map_append]
    exact congrArg₂ (· ++ ·) (captureNode_map_pin m m' pref n t)
      (captureEntries_map_pin m m' pref es)
termination_by structural es => es
end

mutual
theorem captureNode_canon_perm (m : BackendMeta) (pref name : String) :
    ∀ t : FsTree, (captureNode m pref name (canon t)).Perm (captureNode m pref name t)
  | .file _ _ => .refl _
  | .dir mode es => by
    simp only [canon, captureNode]
    refine List.Perm.cons _ ?_
    rw [captureEntries_eq_flatMap m (pref ++ name ++ "/")
      (List.insertionSort (keyLe Prod.fst) (canonEntries es))]
    have h₃ : List.Perm
        ((List.insertionSort (keyLe Prod.fst) (canonEntries es)).flatMap
          (fun e => captureNode m (pref ++ name ++ "/") e.1 e.2))
        (captureEntries m (pref ++ name ++ "/") (canonEntries es)) := by
      rw [captureEntries_eq_flatMap m (pref ++ name ++ "/") (canonEntries es)]
      exact perm_flatMap _ (List.perm_insertionSort _ _)
    exact h₃.trans (captureEntries_canon_perm m _ es)
termination_by structural t => t
theorem captureEntries_canon_perm (m : BackendMeta) (pref : String) :
    ∀ es : List (String × FsTree),
      (captureEntries m pref (canonEntries es)).Perm (captureEntries m pref es)
  | [] => .refl _
  | (n, t) :: es => by
    simp only [canonEntries, captureEntries]
    exact (captureNode_canon_perm m pref n t).append (captureEntries_canon_perm m pref es)
termination_by structural es => es
end

theorem map_name_pin (l : List TarEntry) :
    (l.map pinEntry).map TarEntry.name = l.map TarEntry.name := by
  rw [List.map_map]
  exact List.map_congr_left (fun e _ => rfl)

/-- Fixed metadata used as a reference point in proofs. -/
def pinnedMeta : BackendMeta := ⟨0, 0, 0⟩

theorem normalize_capture_eq_canon (m : BackendMeta) (root : String) (t : FsTree)
    (hnd : ((captureNode pinnedMeta "" root (canon t)).map TarEntry.name).Nodup) :
    normalize_tar_archive (captureNode m "" root t)
      = normalize_tar_archive (captureNode pinnedMeta "" root (canon t)) := by
  unfold normalize_tar_archive
  have hperm : ((captureNode m "" root t).map pinEntry).Perm
      ((captureNode pinnedMeta "" root (canon t)).map pinEntry) := by
    rw [captureNode_map_pin m pinnedMeta]
    exact ((captureNode_canon_perm pinnedMeta "" root t).symm.map pinEntry)
  refine insertionSort_eq_of_perm_keys TarEntry.name hperm ?_
  have h₁ : (captureNode m "" root t).map TarEntry.name
      = (captureNode pinnedMeta "" root t).map TarEntry.name := by
    rw [← map_name_pin, captureNode_map_pin m pinnedMeta, map_name_pin]
  rw [map_name_pin, h₁]
  exact ((captureNode_canon_perm pinnedMeta "" root t).map TarEntry.name).nodup hnd


/-! ### Walk lemmas (tempdir enumeration) -/

theorem canonEntries_eq_map (es : List (String × FsTree)) :
    canonEntries es = es.map (fun e => (e.1, canon e.2)) := by
  induction es with
  | nil => rfl
  | cons e es ih => cases e; simp [canonEntries, ih]

theorem fileNamesOf_canonEntries (es : List (String × FsTree)) :
    fileNamesOf (canonEntries es) = fileNamesOf es := by
  induction es with
  | nil => rfl
  | cons e es ih =>
    obtain ⟨n, t⟩ := e
    cases t <;> simp [canonEntries, fileNamesOf, canon, List.filterMap_cons] <;>
      simpa [fileNamesOf] using ih

theorem walkSub_eq_filterMap (pref pat : String) (es : List (String × FsTree)) :
    walkSub pref pat es = es.filterMap (fun e =>
      match e.2 with
      | .file _ _ => none
      | .dir _ _ => some (e.1, walkFind (pref ++ e.1 ++ "/") pat e.2)) := by
  induction es with
  | nil => rfl
  | cons e es ih =>
    obtain ⟨n, t⟩ := e
    cases t <;> simp [walkSub, List.filterMap_cons, ih]

theorem walkSub_map_fst_sublist (pref pat : String) (es : List (String × FsTree)) :
    ((walkSub pref pat es).map Prod.fst).Sublist (es.map Prod.fst) := by
  induction es with
  | nil => simp [walkSub]
  | cons e es ih =>
    obtain ⟨n, t⟩ := e
    cases t with
    | file c mode => simpa [walkSub] using ih.cons n
    | dir mode cs => simpa [walkSub] using ih.cons₂ n

theorem walkSub_perm (pref pat : String) {es₁ es₂ : List (String × FsTree)}
    (h : es₁.Perm es₂) : (walkSub pref pat es₁).Perm (walkSub pref pat es₂) := by
  rw [walkSub_eq_filterMap, walkSub_eq_filterMap]
  exact h.filterMap _

theorem wfB_dir {mode : Nat} {es : List (String × FsTree)} (h : wfB (.dir mode es) = true) :
    (es.map Prod.fst).Nodup ∧ wfEntriesB es = true := by
  simpa [wfB, Bool.and_eq_true, decide_eq_true_eq] using h

theorem wfEntriesB_cons {n : String} {t : FsTree} {es : List (String × FsTree)}
    (h : wfEntriesB ((n, t) :: es) = true) : wfB t = true ∧ wfEntriesB es = true := by
  simpa [wfEntriesB, Bool.and_eq_true] using h

mutual
theorem walkFind_canon (pref pat : String) :
    ∀ t : FsTree, wfB t = true → walkFind pref pat (canon t) = walkFind pref pat t
  | .file _ _, _ => rfl
  | .dir mode es, hwf => by
    obtain ⟨hnd, hwfe⟩ := wfB_dir hwf
    simp only [canon, walkFind]
    have hfiles : List.insertionSort (keyLe id)
        (fileNamesOf (List.insertionSort (keyLe Prod.fst) (canonEntries es)))
        = List.insertionSort (keyLe id) (fileNamesOf es) := by
      refine insertionSort_eq_of_perm_str ?_
      have h₁ : (fileNamesOf (List.insertionSort (keyLe Prod.fst) (canonEntries es))).Perm
          (fileNamesOf (canonEntries es)) :=
        (List.perm_insertionSort _ _).filterMap _
      rw [fileNamesOf_canonEntries] at h₁
      exact h₁
    have hsub : walkSub pref pat (canonEntries es) = walkSub pref pat es :=
      walkSub_canon pref pat es hwfe
    have hdirs : List.insertionSort (keyLe Prod.fst)
        (walkSub pref pat (List.insertionSort (keyLe Prod.fst) (canonEntries es)))
        = List.insertionSort (keyLe Prod.fst) (walkSub pref pat es) := by
      refine insertionSort_eq_of_perm_keys Prod.fst ?_ ?_
      · exact (walkSub_perm pref pat (List.perm_insertionSort _ _)).trans (hsub ▸ .refl _)
      · have hp : ((walkSub pref pat (List.insertionSort (keyLe Prod.fst)
            (canonEntries es))).map Prod.fst).Perm ((walkSub pref pat es).map Prod.fst) :=
          ((walkSub_perm pref pat (List.perm_insertionSort _ _)).trans
            (hsub ▸ .refl _)).map Prod.fst
        exact hp.symm.nodup ((walkSub_map_fst_sublist pref pat es).nodup hnd)
    rw [hfiles, hdirs]
termination_by structural t => t
theorem walkSub_canon (pref pat : String) :
    ∀ es : List (String × FsTree), wfEntriesB es = true →
      walkSub pref pat (canonEntries es) = walkSub pref pat es
  | [], _ => rfl
  | (n, t) :: es, h => by
    obtain ⟨h₁, h₂⟩ := wfEntriesB_cons h
    cases t with
    | file c mode =>
      simp only [canonEntries, canon, walkSub]
      exact walkSub_canon pref pat es h₂
    | dir mode cs =>
      have hc := walkFind_canon (pref ++ n ++ "/") pat (.dir mode cs) h₁
      simp only [canonEntries, walkSub, canon] at hc ⊢
      rw [hc]
      exact congrArg _ (walkSub_canon pref pat es h₂)
termination_by structural es => es
end

/-! ### Base-name matching characterizations -/

theorem filter_map_pair (pref pat : String) (l : List String) :
    (((l.map (fun f => (pref ++ f, f))).filter (fun e => fnmatch e.2 pat)).map Prod.fst)
      = (l.filter (fun f => fnmatch f pat)).map (fun f => pref ++ f) := by
  induction l with
  | nil => rfl
  | cons a l ih =>
    by_cases h : fnmatch a pat = true
    all_goals simp [List.filter_cons, h, ih]

theorem orderedInsert_map_fst_preserving {β γ : Type} (g : String × β → String × γ)
    (hg : ∀ e, (g e).1 = e.1) (a : String × β) (l : List (String × β)) :
    List.orderedInsert (keyLe Prod.fst) (g a) (l.map g)
      = (List.orderedInsert (keyLe Prod.fst) a l).map g := by
  have hkey : ∀ x y, keyLe Prod.fst (g x) (g y) ↔ keyLe Prod.fst x y := by
    intro x y
    unfold keyLe
    rw [hg x, hg y]
  induction l with
  | nil => rfl
  | cons b l ih =>
    by_cases h : keyLe Prod.fst a b
    · simp [List.orderedInsert, h, (hkey a b).mpr h]
    · have h' : ¬ keyLe Prod.fst (g a) (g b) := fun hh => h ((hkey a b).mp hh)
      simp [List.orderedInsert, h, h', ih]

theorem insertionSort_map_fst_preserving {β γ : Type} (g : String × β → String × γ)
    (hg : ∀ e, (g e).1 = e.1) (l : List (String × β)) :
    List.insertionSort (keyLe Prod.fst) (l.map g)
      = (List.insertionSort (keyLe Prod.fst) l).map g := by
  induction l with
  | nil => rfl
  | cons a l ih => simp [List.insertionSort, ih, orderedInsert_map_fst_preserving g hg]

mutual
theorem walkFind_eq_filter (pref pat : String) :
    ∀ t : FsTree, walkFind pref pat t
      = ((walkAllFiles pref t).filter (fun e => fnmatch e.2 pat)).map Prod.fst
  | .file _ _ => rfl
  | .dir mode es => by
    simp only [walkFind, walkAllFiles, List.filter_append, List.map_append]
    refine congrArg₂ (· ++ ·) (filter_map_pair pref pat _).symm ?_
    have hmv := insertionSort_map_fst_preserving
      (fun e : String × List (String × String) =>
        (e.1, (e.2.filter (fun x => fnmatch x.2 pat)).map Prod.fst))
      (fun _ => rfl) (walkAllSub pref es)
    rw [walkSub_eq_allSub pref pat es, hmv, flatMap_map, filter_flatMap, map_flatMap]
    rfl
termination_by structural t => t
theorem walkSub_eq_allSub (pref pat : String) :
    ∀ es : List (String × FsTree), walkSub pref pat es
      = (walkAllSub pref es).map (fun e =>
          (e.1, (e.2.filter (fun x => fnmatch x.2 pat)).map Prod.fst))
  | [] => rfl
  | (n, t) :: es => by
    cases t with
    | file c mode =>
      simp only [walkSub, walkAllSub]
      exact walkSub_eq_allSub pref pat es
    | dir mode cs =>
      simp only [walkSub, walkAllSub, List.map_cons]
      refine congrArg₂ (· :: ·) ?_ (walkSub_eq_allSub pref pat es)
      exact congrArg (fun l => (n, l)) (walkFind_eq_filter (pref ++ n ++ "/") pat (.dir mode cs))
termination_by structural es => es
end

mutual
theorem findNode_eq_filter (pref pat name : String) :
    ∀ t : FsTree, findNode pref pat name t
      = ((allNodes pref name t).filter (fun e => fnmatch e.2 pat)).map Prod.fst
  | .file _ _ => by
    by_cases h : fnmatch name pat = true <;>
      simp [findNode, allNodes, List.filter_cons, h]
  | .dir mode es => by
    by_cases h : fnmatch name pat = true <;>
      simp [findNode, allNodes, List.filter_cons, h,
        findChildren_eq_filter (pref ++ name ++ "/") pat es]
termination_by structural t => t
theorem findChildren_eq_filter (pref pat : String) :
    ∀ es : List (String × FsTree), findChildren pref pat es
      = ((allNodesChildren pref es).filter (fun e => fnmatch e.2 pat)).map Prod.fst
  | [] => rfl
  | (n, t) :: es => by
    simp only [findChildren, allNodesChildren, List.filter_append, List.map_append]
    exact congrArg₂ (· ++ ·) (findNode_eq_filter pref pat n t)
      (findChildren_eq_filter pref pat es)
termination_by structural es => es
end

/-! ### A literal path separator outside any bracket expression -/

theorem globMatchFuel_litSlash :
    ∀ (fuel : Nat) (toks : List GlobToken) (s : List Char),
      GlobToken.lit '/' ∈ toks → '/' ∉ s → globMatchFuel fuel toks s = false := by
  intro fuel
  induction fuel with
  | zero => intro toks s _ _; rfl
  | succ f ih =>
    intro toks s hmem hs
    match toks with
    | [] => cases hmem
    | .star :: p =>
      have hp : GlobToken.lit '/' ∈ p := by
        rcases List.mem_cons.mp hmem with h | h
        · cases h
        · exact h
      cases s with
      | nil => simp [globMatchFuel, ih p [] hp hs]
      | cons c s' =>
        have hs' : '/' ∉ s' := fun h => hs (List.mem_cons_of_mem _ h)
        simp [globMatchFuel, ih p _ hp hs, ih (.star :: p) s' hmem hs']
    | .anyChar :: p =>
      have hp : GlobToken.lit '/' ∈ p := by
        rcases List.mem_cons.mp hmem with h | h
        · cases h
        · exact h
      cases s with
      | nil => rfl
      | cons c s' =>
        have hs' : '/' ∉ s' := fun h => hs (List.mem_cons_of_mem _ h)
        simp [globMatchFuel, ih p s' hp hs']
    | .lit c :: p =>
      cases s with
      | nil => rfl
      | cons d s' =>
        have hs' : '/' ∉ s' := fun h => hs (List.mem_cons_of_mem _ h)
        rcases List.mem_cons.mp hmem with h | h
        · -- the head is the literal slash: the subject head cannot be '/'
          have hc : c = '/' := by cases h; rfl
          have hd : d ≠ '/' := fun hdd => hs (hdd ▸ List.mem_cons_self d s')
          have : (c == d) = false := by
            subst hc
            exact beq_false_of_ne (fun hh => hd hh.symm)
          simp [globMatchFuel, this]
        · simp [globMatchFuel, ih p s' h hs']
    | .cls neg items :: p =>
      have hp : GlobToken.lit '/' ∈ p := by
        rcases List.mem_cons.mp hmem with h | h
        · cases h
        · exact h
      cases s with
      | nil => rfl
      | cons d s' =>
        have hs' : '/' ∉ s' := fun h => hs (List.mem_cons_of_mem _ h)
        simp [globMatchFuel, ih p s' hp hs']

/-- At the `fnmatch` level: a pattern whose compiled form contains the
literal `/` (a separator outside any bracket expression) cannot match a
separator-free name. -/
theorem fnmatch_litSlash (name pat : String)
    (hmem : GlobToken.lit '/' ∈ globTranslate pat.data)
    (hs : '/' ∉ name.data) : fnmatch name pat = false :=
  globMatchFuel_litSlash _ _ _ hmem hs

/-! ## Claim theorems -/

/-- Claim C1: for any two file trees with identical entry names, file
contents, and permission bits (equal canonical forms; the capture of the
well-formed tree has no duplicate entry paths), `get_output_archive`
applied to each — even when one is captured from a container handle and
the other from a tempdir handle, with arbitrary backend metadata and
readdir orders — returns byte-identical normalized archives. -/
theorem get_output_archive_backend_agnostic (t₁ t₂ : FsTree) (m₁ m₂ : BackendMeta)
    (root : String)
    (hnd : ((captureNode pinnedMeta "" root (canon t₁)).map TarEntry.name).Nodup)
    (heq : canon t₁ = canon t₂) :
    ContainerContext.get_output_archive m₁ root t₁
      = TempdirContext.get_output_archive m₂ root t₂ := by
  unfold ContainerContext.get_output_archive TempdirContext.get_output_archive
  rw [normalize_capture_eq_canon m₁ root t₁ hnd,
    normalize_capture_eq_canon m₂ root t₂ (heq ▸ hnd), heq]

/-- Witness for C1 at concrete trees that differ in readdir order and in
backend metadata. -/
theorem get_output_archive_backend_agnostic_witness :
    ((captureNode pinnedMeta "" "out" (canon exOutTree)).map TarEntry.name).Nodup
    ∧ canon exOutTree = canon exOutTreeSorted
    ∧ ContainerContext.get_output_archive ⟨1660000000, 0, 0⟩ "out" exOutTree
        = TempdirContext.get_output_archive ⟨1234, 1000, 1000⟩ "out" exOutTreeSorted :=
  ⟨by decide, rfl,
    get_output_archive_backend_agnostic exOutTree exOutTreeSorted ⟨1660000000, 0, 0⟩
      ⟨1234, 1000, 1000⟩ "out" (by decide) rfl⟩

/-- Claim C2: for every exit from the `build_environment` scope — normal
return or any exception propagating out of the caller's body — teardown
runs: the container variant stops the container with zero grace period and
then removes it, and the tempdir variant deletes the temporary directory;
the body's outcome is propagated unchanged. -/
theorem build_environment_teardown {α ε : Type} (isolated : Bool)
    (body : Bool → Except ε α) :
    (build_environment isolated body).1 = body isolated
    ∧ (build_environment isolated body).2
        = (if isolated then [TeardownStep.containerStop 0, TeardownStep.containerRemove]
           else [TeardownStep.tempdirCleanup]) := by
  cases isolated <;> simp [build_environment]

/-- Claim C3: for every tempdir handle, `run` with any user other than the
default `"build"` fails with the cannot-change-user error before any
command executes, while a container handle accepts arbitrary user
values. -/
theorem run_privilege_boundary (td : String) (program : Program) (user : String)
    (env : List (String × String)) (program' : Program) (user' : String)
    (env' : List (String × String)) (h : user ≠ "build") :
    TempdirContext.run td program user env = .error .cannotChangeUser
    ∧ ∃ call : ExecCall,
        ContainerContext.run program' user' env' = .ok call ∧ call.user = user' := by
  refine ⟨?_, ⟨_, rfl, rfl⟩⟩
  simp [TempdirContext.run, h]

/-- Witness for C3 with the non-default user `"root"`. -/
theorem run_privilege_boundary_witness :
    ("root" : String) ≠ "build"
    ∧ (TempdirContext.run "/tmp/pybuild" (.str "build.sh") "root" []
          = .error .cannotChangeUser
      ∧ ∃ call : ExecCall,
          ContainerContext.run (.str "build.sh") "root" [] = .ok call
          ∧ call.user = "root") :=
  ⟨by decide,
    run_privilege_boundary "/tmp/pybuild" (.str "build.sh") "root" []
      (.str "build.sh") "root" [] (by decide)⟩

/-- Counterexample to C4 as stated: over an output tree whose `lib`
directory lists `b.so` before `a.so` in readdir order, the container
variant of `find_output_files` yields `["b.so", "a.so"]` — `find(1)`
traversal order, not the claimed lexicographic order — while the tempdir
variant sorts. -/
theorem find_output_files_order_counterexample :
    ContainerContext.find_output_files exUnsorted ["lib"] "*.so" = ["b.so", "a.so"]
    ∧ TempdirContext.find_output_files exUnsorted ["lib"] "*.so" = ["a.so", "b.so"]
    ∧ (["b.so", "a.so"] : List String) ≠ ["a.so", "b.so"] :=
  ⟨rfl, rfl, by decide⟩

/-- Claim C4 (amended): the tempdir variant of `find_output_files`
enumerates matching files in a fully deterministic order — files and
directories sorted at each level, so the result depends only on the tree's
canonical form, not on readdir order — and over an output tree containing
`lib/a.so`, `lib/sub/b.so`, `lib/c.txt` it returns exactly
`["a.so", "sub/b.so"]`; the container variant yields `find(1)` traversal
order, which need not be lexicographic. -/
theorem find_output_files_tempdir_deterministic (t₁ t₂ : FsTree) (pref pat : String)
    (h₁ : wfB t₁ = true) (h₂ : wfB t₂ = true) (heq : canon t₁ = canon t₂) :
    walkFind pref pat t₁ = walkFind pref pat t₂
    ∧ TempdirContext.find_output_files exOutTree ["lib"] "*.so" = ["a.so", "sub/b.so"] := by
  constructor
  · rw [← walkFind_canon pref pat t₁ h₁, ← walkFind_canon pref pat t₂ h₂, heq]
  · rfl

/-- Witness for C4 (amended) at the example tree in two readdir orders. -/
theorem find_output_files_tempdir_deterministic_witness :
    wfB exOutTree = true ∧ wfB exOutTreeSorted = true
    ∧ canon exOutTree = canon exOutTreeSorted
    ∧ (walkFind "" "*.so" exOutTree = walkFind "" "*.so" exOutTreeSorted
      ∧ TempdirContext.find_output_files exOutTree ["lib"] "*.so" = ["a.so", "sub/b.so"]) :=
  ⟨rfl, rfl, rfl,
    find_output_files_tempdir_deterministic exOutTree exOutTreeSorted "" "*.so" rfl rfl rfl⟩

/-- Claim C5: `find_output_files` is idempotent and restartable on both
backends: a call leaves the backend state unchanged, and a second call
with identical arguments against the unchanged output directory returns
the same ordered sequence (each call re-enumerates from scratch; no cursor
state survives between calls). -/
theorem find_output_files_restartable (outTree : FsTree) (basePath : List String)
    (pat : String) :
    (TempdirContext.find_output_files_call outTree basePath pat).2 = outTree
    ∧ (TempdirContext.find_output_files_call
        (TempdirContext.find_output_files_call outTree basePath pat).2 basePath pat).1
      = (TempdirContext.find_output_files_call outTree basePath pat).1
    ∧ (ContainerContext.find_output_files_call outTree basePath pat).2 = outTree
    ∧ (ContainerContext.find_output_files_call
        (ContainerContext.find_output_files_call outTree basePath pat).2 basePath pat).1
      = (ContainerContext.find_output_files_call outTree basePath pat).1 :=
  ⟨rfl, rfl, rfl, rfl⟩

/-- Claim C6: `install_artifact_archive` resolves its descriptor (package
name, version from the metadata table, target triple, optimization
profile) to the deterministic filename
`<package>-<version>-<triple>-<optimization>.tar` on both backends; in
particular `openssl` with target `x86_64-unknown-linux-gnu` and
optimization `noopt` resolves to
`openssl-1.1.1s-x86_64-unknown-linux-gnu-noopt.tar`. -/
theorem install_artifact_archive_filename
    (buildDir td package v targetTriple optimizations : String)
    (hv : downloadVersion package = some v) :
    ContainerContext.install_artifact_archive buildDir package targetTriple optimizations
      = .ok [.copyFileToContainer
              (buildDir ++ "/" ++ artifactBasename package v targetTriple optimizations)
              "/build" (artifactBasename package v targetTriple optimizations),
            .containerExec ["/bin/tar", "-C", "/tools", "-xf",
              "/build/" ++ artifactBasename package v targetTriple optimizations] "root"]
    ∧ TempdirContext.install_artifact_archive td buildDir package targetTriple optimizations
      = .ok [.extractTarToDirectory
              (buildDir ++ "/" ++ artifactBasename package v targetTriple optimizations)
              (td ++ "/tools")]
    ∧ downloadVersion "openssl" = some "1.1.1s"
    ∧ artifactBasename "openssl" "1.1.1s" "x86_64-unknown-linux-gnu" "noopt"
        = "openssl-1.1.1s-x86_64-unknown-linux-gnu-noopt.tar" := by
  refine ⟨?_, ?_, rfl, rfl⟩ <;>
    simp [ContainerContext.install_artifact_archive,
      TempdirContext.install_artifact_archive, hv]

/-- Witness for C6 at the `openssl` descriptor of the claim. -/
theorem install_artifact_archive_filename_witness :
    downloadVersion "openssl" = some "1.1.1s"
    ∧ ContainerContext.install_artifact_archive "/bd" "openssl"
        "x86_64-unknown-linux-gnu" "noopt"
      = .ok [.copyFileToContainer
              ("/bd" ++ "/" ++ artifactBasename "openssl" "1.1.1s"
                "x86_64-unknown-linux-gnu" "noopt")
              "/build" (artifactBasename "openssl" "1.1.1s"
                "x86_64-unknown-linux-gnu" "noopt"),
            .containerExec ["/bin/tar", "-C", "/tools", "-xf",
              "/build/" ++ artifactBasename "openssl" "1.1.1s"
                "x86_64-unknown-linux-gnu" "noopt"] "root"] :=
  ⟨rfl, (install_artifact_archive_filename "/bd" "/td" "openssl" "1.1.1s"
    "x86_64-unknown-linux-gnu" "noopt" rfl).1⟩

/-- Claim C7: on both backends, `install_toolchain` with binutils, musl
and clang all false performs zero filesystem mutation (an empty install
step list), and with flags set it installs exactly the selected
components, in the order binutils, then the compiler toolchain, then the
libc toolchain. -/
theorem install_toolchain_flags (tcName : String → String → String)
    (buildDir td hostPlatform targetTriple : String) (binutils musl clang : Bool)
    (cb cc cm eb ec em : List InstallStep)
    (hcb : ContainerContext.install_toolchain_archive buildDir "binutils" hostPlatform
      = .ok cb)
    (hcc : ContainerContext.install_toolchain_archive buildDir
      (tcName hostPlatform targetTriple) hostPlatform = .ok cc)
    (hcm : ContainerContext.install_toolchain_archive buildDir "musl" hostPlatform
      = .ok cm)
    (heb : TempdirContext.install_toolchain_archive td buildDir "binutils" hostPlatform
      = .ok eb)
    (hec : TempdirContext.install_toolchain_archive td buildDir
      (tcName hostPlatform targetTriple) hostPlatform = .ok ec)
    (hem : TempdirContext.install_toolchain_archive td buildDir "musl" hostPlatform
      = .ok em) :
    ContainerContext.install_toolchain tcName buildDir hostPlatform targetTriple
        false false false = .ok []
    ∧ TempdirContext.install_toolchain tcName td buildDir hostPlatform targetTriple
        false false false = .ok []
    ∧ ContainerContext.install_toolchain tcName buildDir hostPlatform targetTriple
        binutils musl clang
      = .ok ((if binutils then cb else []) ++ (if clang then cc else [])
          ++ (if musl then cm else []))
    ∧ TempdirContext.install_toolchain tcName td buildDir hostPlatform targetTriple
        binutils musl clang
      = .ok ((if binutils then eb else []) ++ (if clang then ec else [])
          ++ (if musl then em else [])) := by
  refine ⟨rfl, rfl, ?_, ?_⟩ <;>
    cases binutils <;> cases musl <;> cases clang <;>
      simp [ContainerContext.install_toolchain, TempdirContext.install_toolchain,
        hcb, hcc, hcm, heb, hec, hem, Bind.bind, Except.bind, Pure.pure, Except.pure]

/-- Witness for C7 with the real binutils/clang/musl metadata entries and
all flags set. -/
theorem install_toolchain_flags_witness :
    ContainerContext.install_toolchain_archive "/bd" "binutils" "linux64"
      = .ok [.copyFileToContainer "/bd/binutils-2.38-linux64.tar" "/build"
              "binutils-2.38-linux64.tar",
             .containerExec ["/bin/tar", "-C", "/tools", "-xf",
              "/build/binutils-2.38-linux64.tar"] "root"]
    ∧ (ContainerContext.install_toolchain (fun _ _ => "llvm-x86_64-linux") "/bd"
        "linux64" "x86_64-unknown-linux-gnu" false false false = .ok []
      ∧ TempdirContext.install_toolchain (fun _ _ => "llvm-x86_64-linux") "/td" "/bd"
        "linux64" "x86_64-unknown-linux-gnu" false false false = .ok []
      ∧ ContainerContext.install_toolchain (fun _ _ => "llvm-x86_64-linux") "/bd"
        "linux64" "x86_64-unknown-linux-gnu" true true true
        = .ok ((if true then
                  [.copyFileToContainer "/bd/binutils-2.38-linux64.tar" "/build"
                    "binutils-2.38-linux64.tar",
                   .containerExec ["/bin/tar", "-C", "/tools", "-xf",
                    "/build/binutils-2.38-linux64.tar"] "root"]
                else [])
            ++ (if true then
                  [.copyFileToContainer "/bd/llvm-x86_64-linux-14.0.3+20220508-linux64.tar"
                    "/build" "llvm-x86_64-linux-14.0.3+20220508-linux64.tar",
                   .containerExec ["/bin/tar", "-C", "/tools", "-xf",
                    "/build/llvm-x86_64-linux-14.0.3+20220508-linux64.tar"] "root"]
                else [])
            ++ (if true then
                  [.copyFileToContainer "/bd/musl-1.2.3-linux64.tar" "/build"
                    "musl-1.2.3-linux64.tar",
                   .containerExec ["/bin/tar", "-C", "/tools", "-xf",
                    "/build/musl-1.2.3-linux64.tar"] "root"]
                else [])) 
      ∧ TempdirContext.install_toolchain (fun _ _ => "llvm-x86_64-linux") "/td" "/bd"
        "linux64" "x86_64-unknown-linux-gnu" true true true
        = .ok ((if true then
                  [.extractTarToDirectory "/bd/binutils-2.38-linux64.tar" "/td/tools"]
                else [])
            ++ (if true then
                  [.extractTarToDirectory
                    "/bd/llvm-x86_64-linux-14.0.3+20220508-linux64.tar" "/td/tools"]
                else [])
            ++ (if true then
                  [.extractTarToDirectory "/bd/musl-1.2.3-linux64.tar" "/td/tools"]
                else []))) :=
  ⟨rfl,
    install_toolchain_flags (fun _ _ => "llvm-x86_64-linux") "/bd" "/td" "linux64"
      "x86_64-unknown-linux-gnu" true true true
      [.copyFileToContainer "/bd/binutils-2.38-linux64.tar" "/build"
        "binutils-2.38-linux64.tar",
       .containerExec ["/bin/tar", "-C", "/tools", "-xf",
        "/build/binutils-2.38-linux64.tar"] "root"]
      [.copyFileToContainer "/bd/llvm-x86_64-linux-14.0.3+20220508-linux64.tar" "/build"
        "llvm-x86_64-linux-14.0.3+20220508-linux64.tar",
       .containerExec ["/bin/tar", "-C", "/tools", "-xf",
        "/build/llvm-x86_64-linux-14.0.3+20220508-linux64.tar"] "root"]
      [.copyFileToContainer "/bd/musl-1.2.3-linux64.tar" "/build" "musl-1.2.3-linux64.tar",
       .containerExec ["/bin/tar", "-C", "/tools", "-xf",
        "/build/musl-1.2.3-linux64.tar"] "root"]
      [.extractTarToDirectory "/bd/binutils-2.38-linux64.tar" "/td/tools"]
      [.extractTarToDirectory "/bd/llvm-x86_64-linux-14.0.3+20220508-linux64.tar"
        "/td/tools"]
      [.extractTarToDirectory "/bd/musl-1.2.3-linux64.tar" "/td/tools"]
      rfl rfl rfl rfl rfl rfl⟩

/-- Counterexample to C8 as stated: a path resolving to a directory is not
a regular file, yet `get_file` fails with an is-a-directory error (tempdir)
or an attribute error on `None` (container), not with the not-found
error. -/
theorem get_file_directory_counterexample :
    TempdirContext.get_file exFileDir ["d"] = .error .isADirectory
    ∧ GetFileError.isADirectory ≠ GetFileError.fileNotFound
    ∧ ContainerContext.get_file pinnedMeta exFileDir ["d"] = .error .attributeError
    ∧ GetFileError.attributeError ≠ GetFileError.fileNotFound :=
  ⟨rfl, by decide, rfl, by decide⟩

/-- Claim C8 (amended): on both backends `get_file` returns the raw bytes
of exactly one file when the path resolves to a regular file, and fails
whenever it does not — with a not-found error when the path is absent, and
with a different error (is-a-directory on the tempdir backend, an
attribute error on the container backend) when the path resolves to a
directory. -/
theorem get_file_behavior (m : BackendMeta) (root : FsTree) (path : List String) :
    (lookupPath root path = none →
      TempdirContext.get_file root path = .error .fileNotFound
      ∧ ContainerContext.get_file m root path = .error .fileNotFound)
    ∧ (∀ (c : List Nat) (mode : Nat), lookupPath root path = some (.file c mode) →
      TempdirContext.get_file root path = .ok c
      ∧ ContainerContext.get_file m root path = .ok c)
    ∧ (∀ (mode : Nat) (es : List (String × FsTree)),
        lookupPath root path = some (.dir mode es) →
      TempdirContext.get_file root path = .error .isADirectory
      ∧ ContainerContext.get_file m root path = .error .attributeError) := by
  refine ⟨?_, ?_, ?_⟩
  · intro h
    constructor <;>
      simp [TempdirContext.get_file, ContainerContext.get_file, container_get_archive, h]
  · intro c mode h
    constructor <;>
      simp [TempdirContext.get_file, ContainerContext.get_file, container_get_archive, h,
        captureNode]
  · intro mode es h
    constructor <;>
      simp [TempdirContext.get_file, ContainerContext.get_file, container_get_archive, h,
        captureNode]

/-- Witness for C8 (amended) at a concrete regular file. -/
theorem get_file_behavior_witness :
    lookupPath exFileDir ["a"] = some (.file [7, 8] 420)
    ∧ (TempdirContext.get_file exFileDir ["a"] = .ok [7, 8]
      ∧ ContainerContext.get_file pinnedMeta exFileDir ["a"] = .ok [7, 8]) :=
  ⟨rfl, (get_file_behavior pinnedMeta exFileDir ["a"]).2.1 [7, 8] 420 rfl⟩

/-- Counterexample to C9 as stated: a command given in list form with a
relative path is executed unchanged — it is not resolved against the
backend's workspace root — on both backends. -/
theorem run_argv_not_resolved_counterexample :
    ContainerContext.run (.argv ["foo.sh"]) "build" []
      = .ok ⟨.argv ["foo.sh"], "build", none, []⟩
    ∧ Program.argv ["foo.sh"] ≠ Program.argv ["/build/foo.sh"]
    ∧ TempdirContext.run "/td" (.argv ["foo.sh"]) "build" []
      = .ok ⟨.argv ["foo.sh"], "build", some "/td", []⟩ :=
  ⟨rfl, by decide, rfl⟩

/-- Claim C9 (amended): a command passed to `run` as a string with a
relative path is resolved against the backend's workspace root before
execution (`/build` for the container, the temporary directory for the
tempdir backend); a command passed in list form is executed unchanged. -/
theorem run_resolves_string_programs (td s user : String)
    (env : List (String × String)) (args : List String)
    (h : startsWithSlash s = false) :
    ContainerContext.run (.str s) user env
      = .ok ⟨.str ("/build/" ++ s), user, none, env⟩
    ∧ TempdirContext.run td (.str s) "build" env
      = .ok ⟨.str (td ++ "/" ++ s), "build", some td, env⟩
    ∧ ContainerContext.resolveProgram (.argv args) = .argv args
    ∧ TempdirContext.resolveProgram td (.argv args) = .argv args := by
  refine ⟨?_, ?_, rfl, rfl⟩ <;>
    simp [ContainerContext.run, TempdirContext.run, ContainerContext.resolveProgram,
      TempdirContext.resolveProgram, h]

/-- Witness for C9 (amended) at a concrete relative string command. -/
theorem run_resolves_string_programs_witness :
    startsWithSlash "build.sh" = false
    ∧ (ContainerContext.run (.str "build.sh") "build" []
        = .ok ⟨.str ("/build/" ++ "build.sh"), "build", none, []⟩
      ∧ TempdirContext.run "/td" (.str "build.sh") "build" []
        = .ok ⟨.str ("/td" ++ "/" ++ "build.sh"), "build", some "/td", []⟩
      ∧ ContainerContext.resolveProgram (.argv ["x"]) = .argv ["x"]
      ∧ TempdirContext.resolveProgram "/td" (.argv ["x"]) = .argv ["x"]) :=
  ⟨rfl, run_resolves_string_programs "/td" "build.sh" "build" [] ["x"] rfl⟩

/-- Counterexample to C10 as stated: the pattern `[a/]bc` contains a path
separator yet matches the file `abc` on both backends, because the
separator sits inside a bracket expression. -/
theorem separator_pattern_matches_counterexample :
    '/' ∈ ("[a/]bc" : String).data
    ∧ TempdirContext.find_output_files (.dir 493 [("abc", .file [1] 420)]) [] "[a/]bc"
        = ["abc"]
    ∧ ContainerContext.find_output_files (.dir 493 [("abc", .file [1] 420)]) [] "[a/]bc"
        = ["abc"] :=
  ⟨by decide, rfl, rfl⟩

/-- Claim C10 (amended): on both backends `find_output_files` matches the
glob pattern against each node's base name only, never against its
directory-qualified relative path — the tempdir walk and the container
find both enumerate exactly the visited nodes whose base name matches —
and a pattern containing a path separator as a literal outside any bracket
expression matches no file name. -/
theorem find_output_files_base_name_only (pref pat name : String) (t : FsTree)
    (name' pat' : String)
    (hmem : GlobToken.lit '/' ∈ globTranslate pat'.data)
    (hs : '/' ∉ name'.data) :
    walkFind pref pat t
      = ((walkAllFiles pref t).filter (fun e => fnmatch e.2 pat)).map Prod.fst
    ∧ findNode pref pat name t
      = ((allNodes pref name t).filter (fun e => fnmatch e.2 pat)).map Prod.fst
    ∧ fnmatch name' pat' = false :=
  ⟨walkFind_eq_filter pref pat t, findNode_eq_filter pref pat name t,
    fnmatch_litSlash name' pat' hmem hs⟩

/-- Witness for C10 (amended): the `lib` example tree, and the literal
separator pattern `su/b` against the name `a.so`. -/
theorem find_output_files_base_name_only_witness :
    GlobToken.lit '/' ∈ globTranslate ("su/b" : String).data
    ∧ '/' ∉ ("a.so" : String).data
    ∧ (walkFind "" "*.so" exOutTree
        = ((walkAllFiles "" exOutTree).filter (fun e => fnmatch e.2 "*.so")).map Prod.fst
      ∧ findNode "" "*.so" "lib" exOutTree
        = ((allNodes "" "lib" exOutTree).filter (fun e => fnmatch e.2 "*.so")).map Prod.fst
      ∧ fnmatch "a.so" "su/b" = false) :=
  ⟨by decide, by decide,
    find_output_files_base_name_only "" "*.so" "lib" exOutTree "a.so" "su/b"
      (by decide) (by decide)⟩
